import Mathlib

/-!
Verification development for the `sthe` descriptor-compiler / extraction-engine
library.  The public surface is the C header `src/inc/sthe.h`; the compiler and
engine behaviour is modelled from the specification, since only the interface
declarations are present in the sources.
-/

namespace Sthe

/-- Format tag from `src/inc/sthe.h`: `typedef enum DescpType { Json, Toml }`. -/
inductive DescpType
  | Json
  | Toml
deriving DecidableEq

/-- Return code from `src/inc/sthe.h`: `typedef enum RetCode { Succ, InvalidArgs }`. -/
inductive RetCode
  | Succ
  | InvalidArgs
deriving DecidableEq

/-- Modelled from the spec: the in-memory structured value ("tree") produced by
the format parsers and consumed by the extraction engine (JSON or TOML
object/array/scalar).  The concrete parsers are out-of-scope collaborators. -/
inductive Value
  | null
  | bool (b : Bool)
  | num (n : Int)
  | str (s : String)
  | arr (items : List Value)
  | obj (fields : List (String × Value))

mutual

/-- Structural equality test on values. -/
def Value.beq : Value → Value → Bool
  | .null, .null => true
  | .bool a, .bool b => a == b
  | .num a, .num b => a == b
  | .str a, .str b => a == b
  | .arr xs, .arr ys => Value.beqList xs ys
  | .obj xs, .obj ys => Value.beqFields xs ys
  | _, _ => false

/-- Structural equality test on value lists. -/
def Value.beqList : List Value → List Value → Bool
  | [], [] => true
  | x :: xs, y :: ys => Value.beq x y && Value.beqList xs ys
  | _, _ => false

/-- Structural equality test on field lists. -/
def Value.beqFields : List (String × Value) → List (String × Value) → Bool
  | [], [] => true
  | (k, x) :: xs, (l, y) :: ys => k == l && Value.beq x y && Value.beqFields xs ys
  | _, _ => false

end

/-- Modelled from the spec: one step of a selector path expression
(field names, array indices, wildcard). -/
inductive PathStep
  | field (name : String)
  | index (i : Nat)
  | wild
deriving DecidableEq

/-- Modelled from the spec: the type tags a filter may test for. -/
inductive TypeTag
  | tNull
  | tBool
  | tNum
  | tStr
  | tArr
  | tObj
deriving DecidableEq

/-- Modelled from the spec: an optional filter predicate over selected values
(equality, type check, existence). -/
inductive Filter
  | eqVal (v : Value)
  | hasType (t : TypeTag)
  | present

/-- Modelled from the spec: an optional coercion applied to matched values
(string to number, number to string, default-on-missing). -/
inductive Transform
  | coerceNum
  | coerceStr
  | orDefault (v : Value)

/-- Modelled from the spec: one extraction rule of a compiled plan: selector,
optional filter, optional transform, required marker, output key. -/
structure Rule where
  selector : List PathStep
  filter : Option Filter
  transform : Option Transform
  required : Bool
  outputKey : String

/-- Compiled plan, named after the opaque handle type `ExtractOptCompiled` of
`src/inc/sthe.h`.  Modelled from the spec: an ordered list of extraction rules,
plus the root selector that anchors document-scope extraction. -/
structure ExtractOptCompiled where
  rootSel : List PathStep
  rules : List Rule

/-- Modelled from the spec: a Fragment is a sub-tree extraction target, a
Document is the full top-level value; the scope fixes where the plan's root
rule is anchored. -/
inductive Scope
  | fragment
  | document
deriving DecidableEq

/-- Modelled from the spec: the `ExtractionFailure` error class (required
selector missing, transform coercion failure, unresolvable document root). -/
inductive ExtractError
  | requiredMissing (key : String)
  | coerceFailure (key : String)
  | rootMissing
deriving DecidableEq

/-- Modelled from the spec: error kinds of the library: `InvalidArgs`
(malformed descriptor or input text, structurally invalid rule) and the
`ExtractionFailure` class. -/
inductive Error
  | invalidArgs
  | extraction (e : ExtractError)
deriving DecidableEq

/-- Modelled from the spec: the external parse/serialize capability supplied
per format ("a single parse(text) -> Tree and serialize(Tree) -> text pair per
format, selected by tag"). -/
structure FormatCapability where
  parse : String → Option Value
  serialize : Value → String

/-- Modelled from the spec: the capability assignment, one per format tag. -/
abbrev Capabilities := DescpType → FormatCapability

/-- Field lookup in an object's field list (first occurrence). -/
def getField (fields : List (String × Value)) (k : String) : Option Value :=
  (fields.find? (fun kv => kv.1 == k)).map (fun kv => kv.2)

/-- Modelled from the spec: resolution of a single selector step against a
value; wildcard steps produce all children in source order. -/
def resolveStep : PathStep → Value → List Value
  | .field k, .obj fs =>
    match getField fs k with
    | some v => [v]
    | none => []
  | .index i, .arr xs =>
    match xs.get? i with
    | some v => [v]
    | none => []
  | .wild, .arr xs => xs
  | .wild, .obj fs => fs.map (fun kv => kv.2)
  | _, _ => []

/-- Modelled from the spec: resolution of a selector path against an anchor
value, collecting all matches in source order. -/
def resolve (ps : List PathStep) (v : Value) : List Value :=
  ps.foldl (fun acc s => acc.flatMap (resolveStep s)) [v]

/-- Type tag of a value, used by type-check filters. -/
def Value.typeTag : Value → TypeTag
  | .null => .tNull
  | .bool _ => .tBool
  | .num _ => .tNum
  | .str _ => .tStr
  | .arr _ => .tArr
  | .obj _ => .tObj

/-- Modelled from the spec: evaluation of a filter predicate on one candidate
match. -/
def evalFilter : Filter → Value → Bool
  | .eqVal w, v => Value.beq v w
  | .hasType t, v => decide (v.typeTag = t)
  | .present, _ => true

/-- Digit characters of a natural number (fuel-based helper). -/
def natToDigits : Nat → Nat → List Char
  | 0, _ => []
  | fuel + 1, n =>
    if n < 10 then [Char.ofNat (48 + n)]
    else natToDigits fuel (n / 10) ++ [Char.ofNat (48 + n % 10)]

/-- Decimal rendering of a natural number. -/
def natToStr (n : Nat) : String :=
  String.mk (natToDigits (n + 1) n)

/-- Decimal rendering of an integer. -/
def intToStr (i : Int) : String :=
  if i < 0 then "-" ++ natToStr i.natAbs else natToStr i.toNat

/-- Value of a decimal digit list. -/
def digitsToNat (ds : List Char) : Nat :=
  ds.foldl (fun n c => n * 10 + (c.toNat - 48)) 0

/-- Leading decimal natural-number token of a character list. -/
def parseNatTok (cs : List Char) : Option (Nat × List Char) :=
  let ds := cs.takeWhile Char.isDigit
  if ds.isEmpty then none else some (digitsToNat ds, cs.dropWhile Char.isDigit)

/-- Leading decimal integer token of a character list. -/
def parseIntTok : List Char → Option (Int × List Char)
  | '-' :: rest => (parseNatTok rest).map (fun p => (-(p.1 : Int), p.2))
  | cs => (parseNatTok cs).map (fun p => ((p.1 : Int), p.2))

/-- Integer reading of a whole string, used by the numeric coercion. -/
def strToInt? (s : String) : Option Int :=
  match parseIntTok s.data with
  | some (n, []) => some n
  | _ => none

/-- Modelled from the spec: application of a coercion transform to one matched
value; `none` means the value cannot be coerced. -/
def applyTransform : Transform → Value → Option Value
  | .coerceNum, .num n => some (.num n)
  | .coerceNum, .str s => (strToInt? s).map Value.num
  | .coerceNum, _ => none
  | .coerceStr, .str s => some (.str s)
  | .coerceStr, .num n => some (.str (intToStr n))
  | .coerceStr, .bool true => some (.str "true")
  | .coerceStr, .bool false => some (.str "false")
  | .coerceStr, _ => none
  | .orDefault _, v => some v

/-- Modelled from the spec: the default value supplied by a default-on-missing
transform, if any. -/
def transformDefault : Option Transform → Option Value
  | some (.orDefault v) => some v
  | _ => none

/-- Modelled from the spec: the selector matches of a rule after the rule's
filter has been applied per match. -/
def filteredMatches (r : Rule) (anchor : Value) : List Value :=
  match r.filter with
  | some f => (resolve r.selector anchor).filter (evalFilter f)
  | none => resolve r.selector anchor

/-- Modelled from the spec: coercion of every surviving match of one rule; a
single uncoercible value fails with a typed error. -/
def coerceAll (key : String) (tr : Option Transform) : List Value → Except ExtractError (List Value)
  | [] => .ok []
  | v :: vs =>
    match tr with
    | none =>
      match coerceAll key none vs with
      | .error e => .error e
      | .ok ws => .ok (v :: ws)
    | some t =>
      match applyTransform t v with
      | none => .error (.coerceFailure key)
      | some w =>
        match coerceAll key (some t) vs with
        | .error e => .error e
        | .ok ws => .ok (w :: ws)

/-- A single surviving match stays a scalar; repeated matches become an array
in source order. -/
def collapse : List Value → Value
  | [w] => w
  | ws => .arr ws

/-- Modelled from the spec: evaluation of one rule against the anchor.
`ok none` means the rule contributes nothing (missing optional field). -/
def runRule (r : Rule) (anchor : Value) : Except ExtractError (Option (String × Value)) :=
  match filteredMatches r anchor with
  | [] =>
    match transformDefault r.transform with
    | some d => .ok (some (r.outputKey, d))
    | none =>
      if r.required then .error (.requiredMissing r.outputKey)
      else .ok none
  | m :: ms =>
    match coerceAll r.outputKey r.transform (m :: ms) with
    | .error e => .error e
    | .ok ws => .ok (some (r.outputKey, collapse ws))

/-- Modelled from the spec: evaluation of all rules in declaration order,
assembling contributed values under their output keys. -/
def runRules : List Rule → Value → Except ExtractError (List (String × Value))
  | [], _ => .ok []
  | r :: rs, anchor =>
    match runRule r anchor with
    | .error e => .error e
    | .ok none => runRules rs anchor
    | .ok (some kv) =>
      match runRules rs anchor with
      | .error e => .error e
      | .ok kvs => .ok (kv :: kvs)

/-- Modelled from the spec: the anchor of extraction: a fragment is already the
anchor; a document is anchored through the plan's root selector. -/
def anchorValue (opt : ExtractOptCompiled) (scope : Scope) (v : Value) : Except ExtractError Value :=
  match scope with
  | .fragment => .ok v
  | .document =>
    match resolve opt.rootSel v with
    | a :: _ => .ok a
    | [] => .error .rootMissing

/-- Modelled from the spec: pure tree-level extraction: anchor, run the rules,
assemble the result object. -/
def extractValue (opt : ExtractOptCompiled) (scope : Scope) (v : Value) : Except ExtractError Value :=
  match anchorValue opt scope v with
  | .error e => .error e
  | .ok a =>
    match runRules opt.rules a with
    | .error e => .error e
    | .ok kvs => .ok (.obj kvs)

/-- Modelled from the spec: extraction up to (but not including) result
serialization: parse the input text per format, then extract. -/
def extractTree (caps : Capabilities) (text : String) (opt : ExtractOptCompiled)
    (ty : DescpType) (scope : Scope) : Except Error Value :=
  match (caps ty).parse text with
  | none => .error .invalidArgs
  | some v =>
    match extractValue opt scope v with
    | .error e => .error (.extraction e)
    | .ok r => .ok r

/-- Modelled from the spec: full extraction: parse, extract, serialize the
result in the requested output format. -/
def extract (caps : Capabilities) (text : String) (opt : ExtractOptCompiled)
    (ty : DescpType) (scope : Scope) : Except Error String :=
  match extractTree caps text opt ty scope with
  | .error e => .error e
  | .ok r => .ok ((caps ty).serialize r)

/-- Split a character list on a separator character. -/
def splitChar (sep : Char) (cs : List Char) : List (List Char) :=
  cs.foldr
    (fun c acc =>
      match acc with
      | [] => [[]]
      | grp :: rest => if c = sep then [] :: grp :: rest else (c :: grp) :: rest)
    [[]]

/-- Modelled from the spec: one segment of a selector path expression in a
descriptor: a wildcard star, a numeric array index, or a field name. -/
def parseSeg (cs : List Char) : Option PathStep :=
  match cs with
  | [] => none
  | ['*'] => some .wild
  | _ =>
    if cs.all Char.isDigit then some (.index (digitsToNat cs))
    else some (.field (String.mk cs))

/-- Helper mapping `parseSeg` over all segments, failing on any bad segment. -/
def parseSegs : List (List Char) → Option (List PathStep)
  | [] => some []
  | seg :: rest =>
    match parseSeg seg with
    | none => none
    | some s =>
      match parseSegs rest with
      | none => none
      | some ss => some (s :: ss)

/-- Modelled from the spec: syntactic validation of a selector path expression,
a dot-separated sequence of segments. -/
def parseSelector (s : String) : Option (List PathStep) :=
  parseSegs (splitChar '.' s.data)

/-- Modelled from the spec: the type-tag names a descriptor's type filter may
use. -/
def typeTagOfString : String → Option TypeTag
  | "null" => some .tNull
  | "bool" => some .tBool
  | "number" => some .tNum
  | "string" => some .tStr
  | "array" => some .tArr
  | "object" => some .tObj
  | _ => none

/-- Modelled from the spec: a descriptor's filter clause: equality, type check
or existence. -/
def buildFilter : Value → Option Filter
  | .obj [("eq", v)] => some (.eqVal v)
  | .obj [("type", .str t)] => (typeTagOfString t).map Filter.hasType
  | .obj [("exists", .bool true)] => some .present
  | _ => none

/-- Modelled from the spec: a descriptor's transform clause: numeric or string
coercion, or a default-on-missing value. -/
def buildTransform : Value → Option Transform
  | .str "number" => some .coerceNum
  | .str "string" => some .coerceStr
  | .obj [("default", v)] => some (.orDefault v)
  | _ => none

/-- Modelled from the spec: structural validation and translation of one rule
object of a descriptor; `none` on any missing required field or ill-formed
clause (compilation is all-or-nothing). -/
def buildRule (v : Value) : Option Rule :=
  match v with
  | .obj fs =>
    match getField fs "path" with
    | some (.str p) =>
      match parseSelector p with
      | none => none
      | some sel =>
        match getField fs "key" with
        | some (.str key) =>
          match
            (match getField fs "required" with
             | none => some false
             | some (.bool b) => some b
             | some _ => none) with
          | none => none
          | some req =>
            match
              (match getField fs "filter" with
               | none => some none
               | some fv => (buildFilter fv).map some) with
            | none => none
            | some fil =>
              match
                (match getField fs "transform" with
                 | none => some none
                 | some tv => (buildTransform tv).map some) with
              | none => none
              | some tr => some ⟨sel, fil, tr, req, key⟩
        | _ => none
    | _ => none
  | _ => none

/-- Helper mapping `buildRule` over a descriptor's rule list. -/
def buildRules : List Value → Option (List Rule)
  | [] => some []
  | v :: vs =>
    match buildRule v with
    | none => none
    | some r =>
      match buildRules vs with
      | none => none
      | some rs => some (r :: rs)

/-- Duplicate test on a list of output keys. -/
def hasDupKeys : List String → Bool
  | [] => false
  | k :: ks => ks.contains k || hasDupKeys ks

/-- Modelled from the spec: translation of a parsed descriptor tree into a
compiled plan, validating structure: a rules array is present, every rule is
well-formed, and no duplicate output key occurs in the object scope.  `none`
means the descriptor is structurally invalid. -/
def buildPlan (v : Value) : Option ExtractOptCompiled :=
  match v with
  | .obj fs =>
    match
      (match getField fs "root" with
       | none => some []
       | some (.str p) => parseSelector p
       | some _ => none) with
    | none => none
    | some rootSel =>
      match getField fs "rules" with
      | some (.arr rvs) =>
        match buildRules rvs with
        | none => none
        | some rs =>
          if hasDupKeys (rs.map Rule.outputKey) then none
          else some ⟨rootSel, rs⟩
      | _ => none
  | _ => none

/-- Modelled from the spec: the compiler contract
`compile(descriptorText, format) -> CompiledPlan | CompileError`: parse the
descriptor text per format, then validate and translate it; every failure is
`InvalidArgs` and no partial plan is produced. -/
def compile (caps : Capabilities) (descp : String) (ty : DescpType) :
    Except Error ExtractOptCompiled :=
  match (caps ty).parse descp with
  | none => .error .invalidArgs
  | some v =>
    match buildPlan v with
    | none => .error .invalidArgs
    | some p => .ok p

/-- Return code of a fallible operation at the C boundary of `src/inc/sthe.h`:
success maps to `Succ`, every failure to the only other code, `InvalidArgs`. -/
def retCodeOf {α : Type} : Except Error α → RetCode
  | .ok _ => .Succ
  | .error _ => .InvalidArgs

/-- Out-parameter of a fallible operation at the C boundary: the payload on
success, nothing on failure. -/
def outParamOf {α : Type} : Except Error α → Option α
  | .ok a => some a
  | .error _ => none

/-- Boundary operation `compile_opt` of `src/inc/sthe.h`: status code plus
out-parameter holding the compiled plan handle. -/
def compile_opt (caps : Capabilities) (descp : String) (ty : DescpType) :
    RetCode × Option ExtractOptCompiled :=
  (retCodeOf (compile caps descp ty), outParamOf (compile caps descp ty))

/-- Boundary operation `extract_fragment` of `src/inc/sthe.h`: status code plus
out-parameter holding the owned result text. -/
def extract_fragment (caps : Capabilities) (fragment : String)
    (opt : ExtractOptCompiled) (ty : DescpType) : RetCode × Option String :=
  (retCodeOf (extract caps fragment opt ty .fragment),
   outParamOf (extract caps fragment opt ty .fragment))

/-- Boundary operation `extract_document` of `src/inc/sthe.h`: status code plus
out-parameter holding the owned result text. -/
def extract_document (caps : Capabilities) (document : String)
    (opt : ExtractOptCompiled) (ty : DescpType) : RetCode × Option String :=
  (retCodeOf (extract caps document opt ty .document),
   outParamOf (extract caps document opt ty .document))

/-- Boundary operation `release_opt` of `src/inc/sthe.h`; in the pure model a
release is a no-op on the value. -/
def release_opt (_ : ExtractOptCompiled) : Unit := ()

/-- Boundary operation `release_extract` of `src/inc/sthe.h`; in the pure
model a release is a no-op on the value. -/
def release_extract (_ : String) : Unit := ()

/-- Whitespace skipping on character lists. -/
def skipWsL (cs : List Char) : List Char :=
  cs.dropWhile (fun c => c = ' ' || c = '\n' || c = '\t' || c = '\r')

/-- Body of a quoted string (no escape sequences), up to the closing quote. -/
def parseStringBody : List Char → Option (List Char × List Char)
  | [] => none
  | c :: rest =>
    if c = '"' then some ([], rest)
    else (parseStringBody rest).map (fun p => (c :: p.1, p.2))

/-- Drop an expected leading character sequence. -/
def dropLead : List Char → List Char → Option (List Char)
  | [], cs => some cs
  | p :: ps, c :: cs => if c = p then dropLead ps cs else none
  | _ :: _, [] => none

mutual

/-- Fuel-bounded JSON value reader over a character list. -/
def parseValueF : Nat → List Char → Option (Value × List Char)
  | 0, _ => none
  | fuel + 1, cs =>
    match skipWsL cs with
    | [] => none
    | c :: rest =>
      if c = '"' then (parseStringBody rest).map (fun p => (.str (String.mk p.1), p.2))
      else if c = '\x7b' then
        (parseMembersF fuel rest).map (fun p => (.obj p.1, p.2))
      else if c = '[' then
        (parseItemsF fuel rest).map (fun p => (.arr p.1, p.2))
      else if c = 't' then (dropLead ['r', 'u', 'e'] rest).map (fun r => (.bool true, r))
      else if c = 'f' then (dropLead ['a', 'l', 's', 'e'] rest).map (fun r => (.bool false, r))
      else if c = 'n' then (dropLead ['u', 'l', 'l'] rest).map (fun r => (.null, r))
      else if c = '-' || c.isDigit then
        (parseIntTok (c :: rest)).map (fun p => (.num p.1, p.2))
      else none

/-- Fuel-bounded JSON object-member reader, positioned after the opening
brace. -/
def parseMembersF : Nat → List Char → Option (List (String × Value) × List Char)
  | 0, _ => none
  | fuel + 1, cs =>
    match skipWsL cs with
    | '\x7d' :: rest => some ([], rest)
    | '"' :: rest =>
      match parseStringBody rest with
      | none => none
      | some (key, rest1) =>
        match skipWsL rest1 with
        | ':' :: rest2 =>
          match parseValueF fuel rest2 with
          | none => none
          | some (v, rest3) =>
            match skipWsL rest3 with
            | ',' :: rest4 =>
              match parseMembersF fuel rest4 with
              | none => none
              | some (kvs, rest5) => some ((String.mk key, v) :: kvs, rest5)
            | '\x7d' :: rest4 => some ([(String.mk key, v)], rest4)
            | _ => none
        | _ => none
    | _ => none

/-- Fuel-bounded JSON array-item reader, positioned after the opening
bracket. -/
def parseItemsF : Nat → List Char → Option (List Value × List Char)
  | 0, _ => none
  | fuel + 1, cs =>
    match skipWsL cs with
    | ']' :: rest => some ([], rest)
    | cs' =>
      match parseValueF fuel cs' with
      | none => none
      | some (v, rest1) =>
        match skipWsL rest1 with
        | ',' :: rest2 =>
          match parseItemsF fuel rest2 with
          | none => none
          | some (vs, rest3) => some (v :: vs, rest3)
        | ']' :: rest2 => some ([v], rest2)
        | _ => none

end

/-- Demonstration JSON parse capability (integers only, no escapes): the
concrete text parsers are out-of-scope collaborators of the engine. -/
def jsonParse (s : String) : Option Value :=
  match parseValueF (s.length + 1) s.data with
  | some (v, rest) => if (skipWsL rest).isEmpty then some v else none
  | none => none

mutual

/-- Demonstration JSON serializer. -/
def jsonSerialize : Value → String
  | .null => "null"
  | .bool true => "true"
  | .bool false => "false"
  | .num n => intToStr n
  | .str s => "\"" ++ s ++ "\""
  | .arr xs => "[" ++ jsonSerializeItems xs ++ "]"
  | .obj fs => "\x7b" ++ jsonSerializeFields fs ++ "\x7d"

/-- Comma-joined serialization of array items. -/
def jsonSerializeItems : List Value → String
  | [] => ""
  | [x] => jsonSerialize x
  | x :: xs => jsonSerialize x ++ "," ++ jsonSerializeItems xs

/-- Comma-joined serialization of object members. -/
def jsonSerializeFields : List (String × Value) → String
  | [] => ""
  | [(k, v)] => "\"" ++ k ++ "\":" ++ jsonSerialize v
  | (k, v) :: fs => "\"" ++ k ++ "\":" ++ jsonSerialize v ++ "," ++ jsonSerializeFields fs

end

/-- Character test for bare TOML keys. -/
def isIdentChar (c : Char) : Bool :=
  c.isAlphanum || c = '_' || c = '-'

/-- Scalar value of one demonstration-TOML line: a quoted string or an
integer. -/
def parseTomlValue (cs : List Char) : Option Value :=
  match skipWsL cs with
  | '"' :: rest =>
    match parseStringBody rest with
    | some (body, rest1) =>
      if (skipWsL rest1).isEmpty then some (.str (String.mk body)) else none
    | none => none
  | cs' =>
    match parseIntTok cs' with
    | some (n, rest1) => if (skipWsL rest1).isEmpty then some (.num n) else none
    | none => none

/-- One line of demonstration TOML: blank, or `key = value`. -/
def parseTomlLine (cs : List Char) : Option (Option (String × Value)) :=
  let cs1 := skipWsL cs
  if cs1.isEmpty then some none
  else
    let key := cs1.takeWhile isIdentChar
    let rest := cs1.dropWhile isIdentChar
    if key.isEmpty then none
    else
      match skipWsL rest with
      | '=' :: rest1 => (parseTomlValue rest1).map (fun v => some (String.mk key, v))
      | _ => none

/-- All lines of demonstration TOML. -/
def parseTomlLines : List (List Char) → Option (List (String × Value))
  | [] => some []
  | line :: rest =>
    match parseTomlLine line with
    | none => none
    | some none => parseTomlLines rest
    | some (some kv) =>
      match parseTomlLines rest with
      | none => none
      | some kvs => some (kv :: kvs)

/-- Demonstration TOML parse capability (flat tables of string/integer
scalars): the concrete text parsers are out-of-scope collaborators. -/
def tomlParse (s : String) : Option Value :=
  (parseTomlLines (splitChar '\n' s.data)).map Value.obj

/-- Scalar rendering for the demonstration TOML serializer. -/
def tomlScalar : Value → String
  | .str s => "\"" ++ s ++ "\""
  | .num n => intToStr n
  | .bool true => "true"
  | .bool false => "false"
  | _ => ""

/-- Demonstration TOML serializer (flat tables of scalars). -/
def tomlSerialize : Value → String
  | .obj fs => fs.foldr (fun kv acc => kv.1 ++ " = " ++ tomlScalar kv.2 ++ "\n" ++ acc) ""
  | v => tomlScalar v

/-- Demonstration capability assignment used to exercise the engine on
concrete inputs. -/
def demoCaps : Capabilities
  | .Json => ⟨jsonParse, jsonSerialize⟩
  | .Toml => ⟨tomlParse, tomlSerialize⟩

/-- N-fold repetition of the same extraction call with the same arguments. -/
def repeatExtract (caps : Capabilities) (text : String) (opt : ExtractOptCompiled)
    (ty : DescpType) (scope : Scope) (n : Nat) : List (Except Error String) :=
  (List.range n).map (fun _ => extract caps text opt ty scope)

/-- One extraction call seen as a state transition on the compiled plan: the
call yields its result and the plan that remains for subsequent calls. -/
def extractCall (caps : Capabilities) (opt : ExtractOptCompiled)
    (inp : String × DescpType × Scope) : Except Error String × ExtractOptCompiled :=
  (extract caps inp.1 opt inp.2.1 inp.2.2, opt)

/-- Concrete plans and rules used to exercise the theorems below. -/
def rule3 : Rule := ⟨[.field "name"], none, none, false, "name"⟩

/-- Plan holding only `rule3`. -/
def plan3 : ExtractOptCompiled := ⟨[], [rule3]⟩

/-- A required rule whose transform supplies a default value. -/
def ruleC4 : Rule := ⟨[.field "missing"], none, some (.orDefault (.str "d")), true, "k"⟩

/-- Plan holding only `ruleC4`. -/
def planC4 : ExtractOptCompiled := ⟨[], [ruleC4]⟩

/-- A required rule with no transform. -/
def rule4 : Rule := ⟨[.field "name"], none, none, true, "name"⟩

/-- Plan holding only `rule4`. -/
def plan4 : ExtractOptCompiled := ⟨[], [rule4]⟩

/-- A rule with a numeric coercion transform. -/
def rule5 : Rule := ⟨[.field "n"], none, some .coerceNum, false, "n"⟩

/-- Plan holding only `rule5`. -/
def plan5 : ExtractOptCompiled := ⟨[], [rule5]⟩

/-- First rule of the order-preservation example. -/
def rule7a : Rule := ⟨[.field "a"], none, none, false, "a"⟩

/-- Second rule of the order-preservation example. -/
def rule7b : Rule := ⟨[.field "b"], none, none, false, "b"⟩

/-- Plan of the scalar round-trip example. -/
def plan8 : ExtractOptCompiled := ⟨[], [⟨[.field "name"], none, none, false, "name"⟩]⟩

/-- Descriptor text of the format-orthogonality example. -/
def descp9 : String := "\x7b\"rules\":[\x7b\"path\":\"name\",\"key\":\"name\"\x7d]\x7d"

/-- Plan compiled from `descp9`. -/
def plan9 : ExtractOptCompiled := ⟨[], [⟨[.field "name"], none, none, false, "name"⟩]⟩

/-- A rule that contributes a value always outputs it under its own key. -/
lemma runRule_ok_some_key {r : Rule} {a : Value} {kv : String × Value}
    (h : runRule r a = .ok (some kv)) : kv.1 = r.outputKey := by
  unfold runRule at h
  split at h
  · split at h
    · simp only [Except.ok.injEq, Option.some.injEq] at h
      simp [← h]
    · split at h <;> simp_all
  · split at h
    · simp_all
    · simp only [Except.ok.injEq, Option.some.injEq] at h
      simp [← h]

/-- If any rule of the list fails, running the whole list fails. -/
lemma runRules_error_of_mem {rs : List Rule} {a : Value} {r : Rule} {e : ExtractError}
    (hm : r ∈ rs) (h : runRule r a = .error e) :
    ∃ e', runRules rs a = .error e' := by
  induction rs with
  | nil => cases hm
  | cons r0 rs ih =>
    rcases List.mem_cons.mp hm with rfl | hm'
    · exact ⟨e, by simp [runRules, h]⟩
    · cases h0 : runRule r0 a with
      | error e0 => exact ⟨e0, by simp [runRules, h0]⟩
      | ok o =>
        rcases ih hm' with ⟨e', h'⟩
        cases o with
        | none => exact ⟨e', by simp [runRules, h0, h']⟩
        | some kv => exact ⟨e', by simp [runRules, h0, h']⟩

/-- Every key of an assembled result comes from a rule of the plan that
contributed a value under that key. -/
lemma runRules_keys {rs : List Rule} {a : Value} {kvs : List (String × Value)} {k : String}
    (h : runRules rs a = .ok kvs) (hk : k ∈ kvs.map Prod.fst) :
    ∃ r' ∈ rs, r'.outputKey = k ∧ ∃ w, runRule r' a = .ok (some (k, w)) := by
  induction rs generalizing kvs with
  | nil =>
    simp only [runRules, Except.ok.injEq] at h
    subst h
    simp at hk
  | cons r0 rs ih =>
    cases h0 : runRule r0 a with
    | error e => simp [runRules, h0] at h
    | ok o =>
      cases o with
      | none =>
        simp only [runRules, h0] at h
        rcases ih h hk with ⟨r', hr', hkey, w, hw⟩
        exact ⟨r', List.mem_cons_of_mem _ hr', hkey, w, hw⟩
      | some kv =>
        cases h1 : runRules rs a with
        | error e => simp [runRules, h0, h1] at h
        | ok kvs' =>
          simp only [runRules, h0, h1, Except.ok.injEq] at h
          subst h
          simp only [List.map_cons, List.mem_cons] at hk
          rcases hk with hk | hk
          · refine ⟨r0, List.mem_cons_self _ _, ?_, kv.2, ?_⟩
            · rw [hk]
              exact (runRule_ok_some_key h0).symm
            · rw [h0]
              have : kv = (k, kv.2) := by
                cases kv
                simp_all
              rw [← this]
          · rcases ih h1 hk with ⟨r', hr', hkey, w, hw⟩
            exact ⟨r', List.mem_cons_of_mem _ hr', hkey, w, hw⟩

/-- If some match cannot be coerced, coercing the match list fails. -/
lemma coerceAll_error_of_mem {key : String} {t : Transform} {ms : List Value} {v : Value}
    (hv : v ∈ ms) (hf : applyTransform t v = none) :
    ∃ e, coerceAll key (some t) ms = .error e := by
  induction ms with
  | nil => cases hv
  | cons m ms ih =>
    cases hm : applyTransform t m with
    | none => exact ⟨.coerceFailure key, by simp [coerceAll, hm]⟩
    | some w =>
      rcases List.mem_cons.mp hv with rfl | hv'
      · rw [hm] at hf
        cases hf
      · rcases ih hv' with ⟨e, he⟩
        exact ⟨e, by simp [coerceAll, hm, he]⟩

/-- A rule-stage failure surfaces as an extraction-class failure of the whole
call. -/
lemma extract_error_of_runRules {caps : Capabilities} {text : String}
    {opt : ExtractOptCompiled} {ty : DescpType} {scope : Scope} {v a : Value}
    {e : ExtractError}
    (hp : (caps ty).parse text = some v)
    (ha : anchorValue opt scope v = .ok a)
    (hr : runRules opt.rules a = .error e) :
    extract caps text opt ty scope = .error (.extraction e) := by
  simp [extract, extractTree, extractValue, hp, ha, hr]

/-- C1: given the same plan, input text, format tag and scope, two extraction
calls return byte-identical result text, and N repeated invocations all return
that same result. -/
theorem c1_extraction_deterministic (caps : Capabilities) (text : String)
    (opt : ExtractOptCompiled) (ty : DescpType) (scope : Scope) (n : Nat) :
    extract caps text opt ty scope = extract caps text opt ty scope ∧
    repeatExtract caps text opt ty scope n =
      List.replicate n (extract caps text opt ty scope) := by
  refine ⟨rfl, ?_⟩
  simp [repeatExtract]

/-- C2: compilation is all-or-nothing: a descriptor whose text does not parse
for its declared format, or whose parsed form fails structural validation,
makes `compile` return the `InvalidArgs` error, and no plan is produced. -/
theorem c2_compile_all_or_nothing (caps : Capabilities) (descp : String) (ty : DescpType)
    (h : (caps ty).parse descp = none ∨
      ∃ v, (caps ty).parse descp = some v ∧ buildPlan v = none) :
    compile caps descp ty = .error .invalidArgs := by
  rcases h with h | ⟨v, hv, hb⟩
  · simp [compile, h]
  · simp [compile, hv, hb]

/-- Witness for C2 on the spec's own example, an unparsable JSON descriptor. -/
theorem c2_witness :
    ((demoCaps .Json).parse "\x7bnot valid json" = none ∨
      ∃ v, (demoCaps .Json).parse "\x7bnot valid json" = some v ∧ buildPlan v = none) ∧
    compile demoCaps "\x7bnot valid json" .Json = .error .invalidArgs :=
  ⟨Or.inl rfl, c2_compile_all_or_nothing demoCaps "\x7bnot valid json" .Json (Or.inl rfl)⟩

/-- C3: a rule not marked required, whose selected path has no match in the
input and whose transform supplies no default, is not an error: it contributes
nothing and the assembled result omits its output key. -/
theorem c3_missing_optional_omitted (opt : ExtractOptCompiled) (r : Rule) (anchor : Value)
    (hmem : r ∈ opt.rules)
    (hnodup : (opt.rules.map Rule.outputKey).Nodup)
    (hmiss : filteredMatches r anchor = [])
    (hdef : transformDefault r.transform = none)
    (hreq : r.required = false) :
    runRule r anchor = .ok none ∧
    ∀ kvs, runRules opt.rules anchor = .ok kvs → r.outputKey ∉ kvs.map Prod.fst := by
  have hrr : runRule r anchor = .ok none := by
    simp [runRule, hmiss, hdef, hreq]
  refine ⟨hrr, ?_⟩
  intro kvs hks hk
  rcases runRules_keys hks hk with ⟨r', hr', hkey, w, hw⟩
  have hr'r : r' = r :=
    List.inj_on_of_nodup_map hnodup hr' hmem (by rw [hkey])
  subst hr'r
  rw [hrr] at hw
  simp at hw

/-- Witness for C3: an optional rule over a document lacking its field. -/
theorem c3_witness :
    rule3 ∈ plan3.rules ∧
    filteredMatches rule3 (Value.obj [("other", Value.num 1)]) = [] ∧
    runRule rule3 (Value.obj [("other", Value.num 1)]) = .ok none ∧
    (∀ kvs, runRules plan3.rules (Value.obj [("other", Value.num 1)]) = .ok kvs →
      rule3.outputKey ∉ kvs.map Prod.fst) := by
  have h := c3_missing_optional_omitted plan3 rule3 (Value.obj [("other", Value.num 1)])
    (List.mem_singleton.mpr rfl) (by decide) rfl rfl rfl
  exact ⟨List.mem_singleton.mpr rfl, rfl, h.1, h.2⟩

/-- C4 counterexample: a rule marked required whose transform supplies a
default value succeeds on a document lacking the selected path, so extraction
does not fail for every required rule with a missing path. -/
theorem c4_counterexample :
    ruleC4.required = true ∧
    filteredMatches ruleC4 (Value.obj []) = [] ∧
    extract demoCaps "\x7b\x7d" planC4 .Json .document = .ok "\x7b\"k\":\"d\"\x7d" :=
  ⟨rfl, rfl, rfl⟩

/-- C4 (amended): a rule marked required, whose transform supplies no default
value and whose selected path has no match, fails the whole extraction with an
`ExtractionFailure`-class error rather than returning a result. -/
theorem c4_required_missing_fails (caps : Capabilities) (text : String)
    (opt : ExtractOptCompiled) (ty : DescpType) (scope : Scope) (v a : Value) (r : Rule)
    (hp : (caps ty).parse text = some v)
    (ha : anchorValue opt scope v = .ok a)
    (hmem : r ∈ opt.rules)
    (hmiss : filteredMatches r a = [])
    (hdef : transformDefault r.transform = none)
    (hreq : r.required = true) :
    ∃ e, extract caps text opt ty scope = .error (.extraction e) := by
  have hr : runRule r a = .error (.requiredMissing r.outputKey) := by
    simp [runRule, hmiss, hdef, hreq]
  rcases runRules_error_of_mem hmem hr with ⟨e, he⟩
  exact ⟨e, extract_error_of_runRules hp ha he⟩

/-- Witness for C4: a required rule over a document lacking its field. -/
theorem c4_witness :
    (demoCaps .Json).parse "\x7b\x7d" = some (Value.obj []) ∧
    rule4.required = true ∧
    ∃ e, extract demoCaps "\x7b\x7d" plan4 .Json .document = .error (.extraction e) :=
  ⟨rfl, rfl,
    c4_required_missing_fails demoCaps "\x7b\x7d" plan4 .Json .document
      (Value.obj []) (Value.obj []) rule4 rfl rfl (List.mem_singleton.mpr rfl) rfl rfl rfl⟩

/-- C5: a matched value that the rule's transform cannot coerce fails the
whole extraction with a typed error and no result text is produced; the value
is not silently dropped. -/
theorem c5_coercion_failure_fails (caps : Capabilities) (text : String)
    (opt : ExtractOptCompiled) (ty : DescpType) (scope : Scope)
    (v a v0 : Value) (r : Rule) (tr : Transform)
    (hp : (caps ty).parse text = some v)
    (ha : anchorValue opt scope v = .ok a)
    (hmem : r ∈ opt.rules)
    (hv0 : v0 ∈ filteredMatches r a)
    (htr : r.transform = some tr)
    (hfail : applyTransform tr v0 = none) :
    ∃ e, extract caps text opt ty scope = .error (.extraction e) := by
  rcases hms : filteredMatches r a with _ | ⟨m, ms⟩
  · rw [hms] at hv0
    cases hv0
  · rw [hms] at hv0
    rcases @coerceAll_error_of_mem r.outputKey tr (m :: ms) v0 hv0 hfail with ⟨e0, he0⟩
    have hr : runRule r a = .error e0 := by
      simp [runRule, hms, htr, he0]
    rcases runRules_error_of_mem hmem hr with ⟨e, he⟩
    exact ⟨e, extract_error_of_runRules hp ha he⟩

/-- Witness for C5: a non-numeric string under a numeric coercion. -/
theorem c5_witness :
    Value.str "abc" ∈ filteredMatches rule5 (Value.obj [("n", Value.str "abc")]) ∧
    applyTransform .coerceNum (Value.str "abc") = none ∧
    ∃ e, extract demoCaps "\x7b\"n\":\"abc\"\x7d" plan5 .Json .document =
      .error (.extraction e) := by
  have hmem : Value.str "abc" ∈ filteredMatches rule5 (Value.obj [("n", Value.str "abc")]) := by
    show Value.str "abc" ∈ [Value.str "abc"]
    exact List.mem_singleton.mpr rfl
  refine ⟨hmem, rfl, ?_⟩
  exact c5_coercion_failure_fails demoCaps "\x7b\"n\":\"abc\"\x7d" plan5 .Json .document
    (Value.obj [("n", Value.str "abc")]) (Value.obj [("n", Value.str "abc")])
    (Value.str "abc") rule5 .coerceNum rfl rfl (List.mem_singleton.mpr rfl) hmem rfl rfl

/-- C6: extraction never mutates the compiled plan: every call, successful or
failed, returns the plan unchanged, and a subsequent call with that plan
behaves exactly as a call with the original plan. -/
theorem c6_plan_immutable (caps : Capabilities) (opt : ExtractOptCompiled)
    (i1 i2 : String × DescpType × Scope) :
    (extractCall caps opt i1).2 = opt ∧
    extractCall caps (extractCall caps opt i1).2 i2 = extractCall caps opt i2 :=
  ⟨rfl, rfl⟩

/-- C7: for a plan with rules [a, b] both of which contribute, the assembled
result's keys appear in rule-declaration order a then b, whatever the anchor's
own field order; wildcard matches are collected in source order. -/
theorem c7_order_preservation (ra rb : Rule) (anchor : Value)
    (kva kvb : String × Value)
    (hra : runRule ra anchor = .ok (some kva))
    (hrb : runRule rb anchor = .ok (some kvb)) :
    runRules [ra, rb] anchor = .ok [kva, kvb] ∧
    kva.1 = ra.outputKey ∧ kvb.1 = rb.outputKey ∧
    ∀ xs : List Value, resolve [PathStep.wild] (Value.arr xs) = xs := by
  refine ⟨?_, runRule_ok_some_key hra, runRule_ok_some_key hrb, ?_⟩
  · simp [runRules, hra, hrb]
  · intro xs
    simp [resolve, resolveStep]

/-- Witness for C7: fields extracted in rule order from a document listing
them in the opposite order. -/
theorem c7_witness :
    runRule rule7a (Value.obj [("b", Value.num 2), ("a", Value.num 1)]) =
      .ok (some ("a", Value.num 1)) ∧
    runRules [rule7a, rule7b] (Value.obj [("b", Value.num 2), ("a", Value.num 1)]) =
      .ok [("a", Value.num 1), ("b", Value.num 2)] :=
  ⟨rfl,
    (c7_order_preservation rule7a rule7b (Value.obj [("b", Value.num 2), ("a", Value.num 1)])
      ("a", Value.num 1) ("b", Value.num 2) rfl rfl).1⟩

/-- C8: scalar round-trip: a plan selecting the single top-level string field
"name", applied to the JSON document with name "x", returns result text whose
parse is again that one-field object. -/
theorem c8_scalar_round_trip :
    extract demoCaps "\x7b\"name\":\"x\"\x7d" plan8 .Json .document =
      .ok "\x7b\"name\":\"x\"\x7d" ∧
    jsonParse "\x7b\"name\":\"x\"\x7d" = some (Value.obj [("name", Value.str "x")]) :=
  ⟨rfl, rfl⟩

/-- C9: descriptor format and extraction format are orthogonal: a plan may be
compiled from either format, and two input texts of different formats that
parse to the same tree extract to the same result tree, the final texts
differing only by the requested output serialization. -/
theorem c9_format_orthogonality (caps : Capabilities) (descp : String) (tyC : DescpType)
    (opt : ExtractOptCompiled) (tJ tT : String) (v : Value) (scope : Scope)
    (_hc : compile caps descp tyC = .ok opt)
    (hJ : (caps .Json).parse tJ = some v)
    (hT : (caps .Toml).parse tT = some v) :
    extractTree caps tJ opt .Json scope = extractTree caps tT opt .Toml scope ∧
    ∀ rv : Value, extractTree caps tT opt .Toml scope = .ok rv →
      extract caps tJ opt .Json scope = .ok ((caps .Json).serialize rv) ∧
      extract caps tT opt .Toml scope = .ok ((caps .Toml).serialize rv) := by
  have heq : extractTree caps tJ opt .Json scope = extractTree caps tT opt .Toml scope := by
    simp [extractTree, hJ, hT]
  refine ⟨heq, ?_⟩
  intro rv hrv
  have hJv : extractTree caps tJ opt .Json scope = .ok rv := heq.trans hrv
  exact ⟨by simp [extract, hJv], by simp [extract, hrv]⟩

/-- Witness for C9: the same logical document as JSON text and as TOML text,
extracted by one plan compiled from a JSON descriptor. -/
theorem c9_witness :
    compile demoCaps descp9 .Json = .ok plan9 ∧
    (demoCaps .Json).parse "\x7b\"name\":\"x\"\x7d" =
      some (Value.obj [("name", Value.str "x")]) ∧
    (demoCaps .Toml).parse "name = \"x\"" =
      some (Value.obj [("name", Value.str "x")]) ∧
    extractTree demoCaps "\x7b\"name\":\"x\"\x7d" plan9 .Json .document =
      extractTree demoCaps "name = \"x\"" plan9 .Toml .document :=
  ⟨rfl, rfl, rfl,
    (c9_format_orthogonality demoCaps descp9 .Json plan9 "\x7b\"name\":\"x\"\x7d"
      "name = \"x\"" (Value.obj [("name", Value.str "x")]) .document rfl rfl rfl).1⟩

/-- C10: the boundary surface of `src/inc/sthe.h`: the `RetCode` enumeration
holds exactly `Succ` and `InvalidArgs`; `compile_opt`, `extract_fragment` and
`extract_document` all follow the status-code-with-out-parameter convention;
and every failure, extraction-class or invalid-argument-class alike, surfaces
as the one code `InvalidArgs` with an empty out-parameter, so the failure
causes are indistinguishable at the boundary. -/
theorem c10_uniform_invalidargs_surface :
    (∀ c : RetCode, c = RetCode.Succ ∨ c = RetCode.InvalidArgs) ∧
    (∀ e : Error, retCodeOf (Except.error e : Except Error String) = RetCode.InvalidArgs ∧
      outParamOf (Except.error e : Except Error String) = none) ∧
    (∀ e e' : Error, retCodeOf (Except.error e : Except Error String) =
      retCodeOf (Except.error e' : Except Error String)) ∧
    (∀ caps fragment opt ty, extract_fragment caps fragment opt ty =
      (retCodeOf (extract caps fragment opt ty .fragment),
       outParamOf (extract caps fragment opt ty .fragment))) ∧
    (∀ caps document opt ty, extract_document caps document opt ty =
      (retCodeOf (extract caps document opt ty .document),
       outParamOf (extract caps document opt ty .document))) ∧
    (∀ caps descp ty, compile_opt caps descp ty =
      (retCodeOf (compile caps descp ty), outParamOf (compile caps descp ty))) := by
  refine ⟨fun c => by cases c <;> simp, fun e => ⟨rfl, rfl⟩, fun e e' => rfl,
    fun _ _ _ _ => rfl, fun _ _ _ _ => rfl, fun _ _ _ => rfl⟩

end Sthe
